/- Verification of the multilingual voice-command parser
   (`productService.ts`: `parseVoiceCommand`, `findProductByName` and their
   helpers) as a shallow embedding.  Strings are modelled through their
   character lists; JavaScript regular expressions are modelled by the
   explicit scanning functions they denote on the inputs the parser uses. -/
import Mathlib

set_option linter.unusedVariables false

namespace VoiceBill

/-! ## String primitives (ASCII model of the JavaScript string operations) -/

/-- ASCII case folding, the fragment of `toLowerCase` exercised by the parser. -/
def lowerChar (c : Char) : Char :=
  if 65 ≤ c.toNat ∧ c.toNat ≤ 90 then Char.ofNat (c.toNat + 32) else c

/-- ASCII case raising, the fragment of `toUpperCase` exercised by the parser. -/
def upperChar (c : Char) : Char :=
  if 97 ≤ c.toNat ∧ c.toNat ≤ 122 then Char.ofNat (c.toNat - 32) else c

def toLowerStr (s : String) : String := ⟨s.data.map lowerChar⟩

def toUpperStr (s : String) : String := ⟨s.data.map upperChar⟩

/-- Does the text start with the pattern? -/
def subAt : List Char → List Char → Bool
  | _, [] => true
  | [], _ :: _ => false
  | c :: cs, d :: ds => c == d && subAt cs ds

/-- Does the text contain the pattern (JS `String.prototype.includes`)? -/
def hasSub (p : List Char) : List Char → Bool
  | [] => subAt [] p
  | c :: cs => subAt (c :: cs) p || hasSub p cs

def strIncludes (s pat : String) : Bool := hasSub pat.data s.data

/-- Remove every non-overlapping left-to-right occurrence of the pattern
    (JS `replace(new RegExp(lit, 'g'), '')` for a literal pattern); the first
    argument counts characters of a matched occurrence still to be skipped. -/
def removeAllAux (p : List Char) : Nat → List Char → List Char
  | _, [] => []
  | Nat.succ k, _ :: cs => removeAllAux p k cs
  | 0, c :: cs =>
    if subAt (c :: cs) p then removeAllAux p (p.length - 1) cs
    else c :: removeAllAux p 0 cs

def removeSub (s pat : String) : String :=
  if pat.data = [] then s else ⟨removeAllAux pat.data 0 s.data⟩

def removeKws (s : String) (ks : List String) : String := ks.foldl removeSub s

def trimStr (s : String) : String :=
  ⟨((s.data.dropWhile Char.isWhitespace).reverse.dropWhile Char.isWhitespace).reverse⟩

/-- Split into maximal whitespace-free chunks (empty chunks kept, filtered by callers). -/
def wordsAux : List Char → List Char → List (List Char)
  | cur, [] => [cur.reverse]
  | cur, c :: cs =>
    if c.isWhitespace then cur.reverse :: wordsAux [] cs else wordsAux (c :: cur) cs

def splitWs (s : List Char) : List (List Char) := wordsAux [] s

/-- Collapse whitespace runs to a single underscore (JS `replace(/\s+/g, '_')`). -/
def wsU : Bool → List Char → List Char
  | _, [] => []
  | lastWs, c :: cs =>
    if c.isWhitespace then (if lastWs then wsU true cs else '_' :: wsU true cs)
    else c :: wsU false cs

/-- Modelled fragment of the Unicode `\p{P}\p{S}` classes used by `normalize`:
    the ASCII punctuation/symbol ranges plus the rupee sign, the only such
    characters the parser's inputs exercise. -/
def isPS (c : Char) : Bool :=
  let n := c.toNat
  (33 ≤ n && n ≤ 47) || (58 ≤ n && n ≤ 64) || (91 ≤ n && n ≤ 96) ||
    (123 ≤ n && n ≤ 126) || (n == 8377)

/-! ## Normalizer and token sets -/

def normTokens (s : String) : List String :=
  ((splitWs ((toLowerStr s).data.map (fun c => if isPS c then ' ' else c))).filter
      (fun w => w ≠ [])).map (fun w => (⟨w⟩ : String))

/-- `normalize`: lowercase, punctuation/symbols to spaces, collapse and trim. -/
def normalize (s : String) : String := String.intercalate " " (normTokens s)

/-- `tokenSet`: the set of nonempty tokens of the normalized string. -/
def tokenSet (s : String) : Finset String := (normTokens s).toFinset

/-- `jaccard`: |intersection| / |union| of two token sets, 0 for two empty sets. -/
def jaccard (a b : Finset String) : ℚ :=
  if (a ∪ b).card = 0 then 0 else ((a ∩ b).card : ℚ) / ((a ∪ b).card : ℚ)

/-- The acceptance threshold 0.4 of the two fuzzy stages. -/
def jaccardThreshold : ℚ := 2 / 5

/-! ## Language-code plumbing -/

/-- JS `a || b` on strings: the empty string is falsy. -/
def jsOr (a b : String) : String := if a = "" then b else a

/-- JS `s.split('-')[0]`. -/
def baseOf (s : String) : String := ⟨s.data.takeWhile (fun c => c ≠ '-')⟩

/-- The effective language string `language || i18n.language || 'en'`. -/
def effLang (i18nLang : String) (language : Option String) : String :=
  jsOr (language.getD "") (jsOr i18nLang "en")

/-! ## Data model -/

structure Product where
  id : String
  name : String
  name_en : String
  name_kn : Option String := none
  name_ml : Option String := none
  name_ta : Option String := none
  name_hi : Option String := none
  price : ℚ
  category : String
  stock : Nat
  barcode : Option String := none
  description : Option String := none
deriving DecidableEq

inductive CmdType where
  | add
  | remove
  | clear
  | checkout
  | pay_method
  | cash_amount
  | pay_now
  | print_receipt
  | unknown
deriving DecidableEq

inductive PayMethod where
  | cash
  | card
  | digital
deriving DecidableEq

/-- The object literal returned by `parseVoiceCommand`. -/
structure CommandResult where
  type : CmdType
  product : Option Product := none
  quantity : Option Nat := none
  action : Option String := none
  method : Option PayMethod := none
  amount : Option ℚ := none
deriving DecidableEq

def chipsProduct : Product :=
  { id := "5", name := "Chips", name_en := "Chips", price := 1.99,
    category := "Snacks", stock := 75 }

def MOCK_PRODUCTS : List Product :=
  [ { id := "1", name := "Coca Cola", name_en := "Coca Cola", price := 2.50,
      category := "Beverages", stock := 100 },
    { id := "2", name := "Pepsi", name_en := "Pepsi", price := 2.50,
      category := "Beverages", stock := 85 },
    { id := "3", name := "Bread", name_en := "Bread", price := 3.20,
      category := "Bakery", stock := 50 },
    { id := "4", name := "Milk", name_en := "Milk", price := 4.80,
      category := "Dairy", stock := 30 },
    chipsProduct,
    { id := "6", name := "Chocolate Bar", name_en := "Chocolate Bar", price := 2.25,
      category := "Snacks", stock := 60 },
    { id := "7", name := "Apple", name_en := "Apple", price := 0.99,
      category := "Fruits", stock := 120 },
    { id := "8", name := "Banana", name_en := "Banana", price := 0.79,
      category := "Fruits", stock := 90 },
    { id := "9", name := "Orange Juice", name_en := "Orange Juice", price := 5.50,
      category := "Beverages", stock := 40 },
    { id := "10", name := "Cookies", name_en := "Cookies", price := 3.75,
      category := "Snacks", stock := 45 },
    { id := "11", name := "Cheese", name_en := "Cheese", price := 6.20,
      category := "Dairy", stock := 25 },
    { id := "12", name := "Yogurt", name_en := "Yogurt", price := 1.85,
      category := "Dairy", stock := 55 } ]

/-- The `name_<lang>` field access of `getProductNameInLanguage`. -/
def nameField (p : Product) (b : String) : String :=
  if b = "en" then p.name_en
  else if b = "kn" then p.name_kn.getD ""
  else if b = "ml" then p.name_ml.getD ""
  else if b = "ta" then p.name_ta.getD ""
  else if b = "hi" then p.name_hi.getD ""
  else ""

/-- `name || product.name_en || product.name` after the field access. -/
def nameResolve (language : String) (p : Product) : String :=
  jsOr (nameField p (baseOf language)) (jsOr p.name_en p.name)

def getProductNameInLanguage (i18nLang : String) (p : Product)
    (language : Option String) : String :=
  nameResolve (effLang i18nLang language) p

/-- `[name_en, name_kn, name_ml, name_ta, name_hi].filter(Boolean)`. -/
def allNames (p : Product) : List String :=
  ([some p.name_en, p.name_kn, p.name_ml, p.name_ta, p.name_hi].filterMap id).filter
    (fun n => n ≠ "")

/-! ## The best-scoring scan used by the two Jaccard stages -/

def bestStep {α : Type} (score : α → ℚ) (best : Option (α × ℚ)) (x : α) :
    Option (α × ℚ) :=
  match best with
  | none => some (x, score x)
  | some (b, bs) => if bs < score x then some (x, score x) else some (b, bs)

def bestByAux {α : Type} (score : α → ℚ) : Option (α × ℚ) → List α → Option (α × ℚ)
  | acc, [] => acc
  | acc, x :: xs => bestByAux score (bestStep score acc x) xs

/-- The `for ... { if (!best || score > best.score) best = ... }` loop. -/
def bestBy {α : Type} (score : α → ℚ) (xs : List α) : Option (α × ℚ) :=
  bestByAux score none xs

/-- The score assigned to a candidate in stage 5 of `findProductByName`. -/
def productScore (i18nLang lang : String) (qT : Finset String) (p : Product) : ℚ :=
  jaccard qT (tokenSet (getProductNameInLanguage i18nLang p (some lang)))

/-- Stage 5: best token-Jaccard candidate in the active language, 0.4 threshold. -/
def stage5 (i18nLang lang : String) (ps : List Product) (qT : Finset String) :
    Option Product :=
  match bestBy (productScore i18nLang lang qT) ps with
  | some (p, s) => if jaccardThreshold ≤ s then some p else none
  | none => none

/-- Stage 6: best token-Jaccard over every localized name of every product. -/
def stage6 (ps : List Product) (qT : Finset String) : Option Product :=
  match bestBy (fun pn : Product × String => jaccard qT (tokenSet pn.2))
      (ps.flatMap (fun p => (allNames p).map (fun n => (p, n)))) with
  | some (pn, s) => if jaccardThreshold ≤ s then some pn.1 else none
  | none => none

/-- `name.replace(/\s+/g, '_').toUpperCase()`. -/
def underscoreUpper (s : String) : String := toUpperStr ⟨wsU false s.data⟩

/-- `findProductByName` after the effective language is fixed. -/
def fpbnAux (i18nLang langFull : String) (ps : List Product) (name : String) :
    Option Product :=
  if trimStr name = "" then none
  else
    let lang := baseOf langFull
    let normalizedName := normalize name
    if normalizedName = "" || normalizedName.length < 2 then none
    else if ps.isEmpty then none
    else
      let maybeBarcode := underscoreUpper name
      match ps.find? (fun p =>
          match p.barcode with
          | some bc => toUpperStr bc == maybeBarcode ||
              strIncludes (toUpperStr bc) maybeBarcode
          | none => false) with
      | some p => some p
      | none =>
        match ps.find? (fun p =>
            normalize (getProductNameInLanguage i18nLang p (some lang)) ==
              normalizedName) with
        | some p => some p
        | none =>
          match ps.find? (fun p =>
              let pn := normalize (getProductNameInLanguage i18nLang p (some lang))
              strIncludes pn normalizedName || strIncludes normalizedName pn) with
          | some p => some p
          | none =>
            match ps.find? (fun p => (allNames p).any (fun n =>
                let nrm := normalize n
                nrm == normalizedName || strIncludes nrm normalizedName ||
                  strIncludes normalizedName nrm)) with
            | some p => some p
            | none =>
              let qTokens := tokenSet normalizedName
              match stage5 i18nLang lang ps qTokens with
              | some p => some p
              | none => stage6 ps qTokens

def findProductByName (i18nLang : String) (ps : List Product) (name : String)
    (language : Option String) : Option Product :=
  fpbnAux i18nLang (effLang i18nLang language) ps name

/-! ## The per-language command keyword tables -/

structure Keywords where
  clear : List String
  checkout : List String
  payNow : List String
  cash : List String
  card : List String
  digital : List String
  received : List String
  remove : List String
  removeLast : List String
  add : List String
  numbers : List (String × Nat)

def enKeywords : Keywords :=
  { clear := ["clear cart", "empty cart", "start over", "clear"],
    checkout := ["checkout", "check out", "proceed to payment", "go to payment",
      "open payment", "bill"],
    payNow := ["pay now", "confirm payment", "complete payment", "pay", "confirm"],
    cash := ["pay with cash", "cash payment", "cash", "cash mode"],
    card := ["pay with card", "card payment", "credit card", "debit card", "card"],
    digital := ["digital payment", "upi", "wallet", "digital", "phonepe", "gpay"],
    received := ["amount received", "cash received", "received", "cash", "amount"],
    remove := ["remove", "delete", "take out"],
    removeLast := ["remove last", "delete last", "undo last", "undo"],
    add := ["add", "get", "buy", "take"],
    numbers := [("one", 1), ("two", 2), ("three", 3), ("four", 4), ("five", 5),
      ("six", 6), ("seven", 7), ("eight", 8), ("nine", 9), ("ten", 10)] }

def hiKeywords : Keywords :=
  { clear := ["कार्ट साफ करो", "खाली करो", "साफ करो", "हटाओ"],
    checkout := ["चेकआउट", "बिल", "भुगतान", "पेमेंट", "बिल बनाओ"],
    payNow := ["अभी भुगतान करो", "भुगतान करो", "पे करो", "कन्फर्म करो"],
    cash := ["नकद", "कैश", "नकद भुगतान", "कैश पेमेंट"],
    card := ["कार्ड", "कार्ड पेमेंट", "क्रेडिट कार्ड"],
    digital := ["डिजिटल", "यूपीआई", "वॉलेट", "फोनपे", "जीपे"],
    received := ["मिला", "प्राप्त", "रुपए मिले", "कैश मिला", "राशि"],
    remove := ["हटाओ", "निकालो", "डिलीट करो"],
    removeLast := ["आखिरी हटाओ", "पिछला हटाओ", "अनडू"],
    add := ["जोड़ो", "लो", "खरीदो", "दो"],
    numbers := [("एक", 1), ("दो", 2), ("तीन", 3), ("चार", 4), ("पांच", 5),
      ("छह", 6), ("सात", 7), ("आठ", 8), ("नौ", 9), ("दस", 10)] }

def knKeywords : Keywords :=
  { clear := ["ಕಾರ್ಟ್ ಸ್ಪಷ್ಟ", "ಖಾಲಿ ಮಾಡಿ", "ಸ್ಪಷ್ಟ", "ತೆಗೆದುಹಾಕಿ"],
    checkout := ["ಚೆಕ್ಔಟ್", "ಬಿಲ್", "ಪಾವತಿ", "ಪೇಮೆಂಟ್", "ಬಿಲ್ ಮಾಡಿ"],
    payNow := ["ಈಗ ಪಾವತಿಸಿ", "ಪಾವತಿಸಿ", "ಪೇ ಮಾಡಿ", "ನಿರ್ಧರಿಸಿ"],
    cash := ["ನಗದು", "ಕ್ಯಾಶ್", "ನಗದು ಪಾವತಿ", "ಕ್ಯಾಶ್ ಪೇಮೆಂಟ್"],
    card := ["ಕಾರ್ಡ್", "ಕಾರ್ಡ್ ಪಾವತಿ", "ಕ್ರೆಡಿಟ್ ಕಾರ್ಡ್"],
    digital := ["ಡಿಜಿಟಲ್", "ಯುಪಿಐ", "ವಾಲೆಟ್", "ಫೋನ್ಪೆ", "ಜಿಪೆ"],
    received := ["ಸಿಕ್ಕಿತು", "ಪ್ರಾಪ್ತ", "ರೂಪಾಯಿ ಸಿಕ್ಕಿತು", "ಕ್ಯಾಶ್ ಸಿಕ್ಕಿತು", "ಮೊತ್ತ"],
    remove := ["ತೆಗೆದುಹಾಕಿ", "ಹೊರತೆಗೆಯಿರಿ", "ಡಿಲೀಟ್ ಮಾಡಿ"],
    removeLast := ["ಕೊನೆಯದನ್ನು ತೆಗೆದುಹಾಕಿ", "ಹಿಂದಿನದನ್ನು ತೆಗೆದುಹಾಕಿ", "ಅನ್ಡೂ"],
    add := ["ಸೇರಿಸಿ", "ತೆಗೆದುಕೊಳ್ಳಿ", "ಖರೀದಿಸಿ", "ಕೊಡಿ"],
    numbers := [("ಒಂದು", 1), ("ಎರಡು", 2), ("ಮೂರು", 3), ("ನಾಲ್ಕು", 4), ("ಐದು", 5),
      ("ಆರು", 6), ("ಏಳು", 7), ("ಎಂಟು", 8), ("ಒಂಬತ್ತು", 9), ("ಹತ್ತು", 10)] }

def mlKeywords : Keywords :=
  { clear := ["കാർട്ട് വ്യക്തമാക്കുക", "ശൂന്യമാക്കുക", "വ്യക്തമാക്കുക", "നീക്കംചെയ്യുക"],
    checkout := ["ചെക്ക്‌ഔട്ട്", "ബിൽ", "പേയ്‌മെന്റ്", "ബിൽ ചെയ്യുക"],
    payNow := ["ഇപ്പോൾ പണമടയ്ക്കുക", "പണമടയ്ക്കുക", "പേ ചെയ്യുക", "സ്ഥിരീകരിക്കുക"],
    cash := ["പണം", "കാഷ്", "പണം പേയ്‌മെന്റ്", "കാഷ് പേയ്‌മെന്റ്"],
    card := ["കാർഡ്", "കാർഡ് പേയ്‌മെന്റ്", "ക്രെഡിറ്റ് കാർഡ്"],
    digital := ["ഡിജിറ്റൽ", "യുപിഐ", "വാലറ്റ്", "ഫോൺപെ", "ജിപെ"],
    received := ["ലഭിച്ചു", "പ്രാപ്തം", "രൂപ ലഭിച്ചു", "കാഷ് ലഭിച്ചു", "തുക"],
    remove := ["നീക്കംചെയ്യുക", "പുറത്തെടുക്കുക", "ഡിലീറ്റ് ചെയ്യുക"],
    removeLast := ["അവസാനത്തേത് നീക്കംചെയ്യുക", "മുമ്പത്തേത് നീക്കംചെയ്യുക", "അൺഡൂ"],
    add := ["ചേർക്കുക", "എടുക്കുക", "വാങ്ങുക", "കൊടുക്കുക"],
    numbers := [("ഒന്ന്", 1), ("രണ്ട്", 2), ("മൂന്ന്", 3), ("നാല്", 4), ("അഞ്ച്", 5),
      ("ആറ്", 6), ("ഏഴ്", 7), ("എട്ട്", 8), ("ഒമ്പത്", 9), ("പത്ത്", 10)] }

def taKeywords : Keywords :=
  { clear := ["கார்ட்டை அழிக்க", "வெறுமையாக்க", "அழி", "நீக்க"],
    checkout := ["செக்அவுட்", "பில்", "கட்டணம்", "பில் செய்"],
    payNow := ["இப்போது பணம் செலுத்த", "பணம் செலுத்த", "பே செய்", "உறுதிப்படுத்த"],
    cash := ["பணம்", "கேஷ்", "பணம் கட்டணம்", "கேஷ் பேமெண்ட்"],
    card := ["கார்டு", "கார்டு கட்டணம்", "கிரெடிட் கார்டு"],
    digital := ["டிஜிட்டல்", "யுபிஐ", "வாலட்", "ஃபோன்பே", "ஜிபே"],
    received := ["கிடைத்தது", "பெறப்பட்டது", "ரூபாய் கிடைத்தது", "கேஷ் கிடைத்தது", "தொகை"],
    remove := ["நீக்க", "வெளியே எடு", "டிலீட் செய்"],
    removeLast := ["கடைசியை நீக்க", "முந்தையதை நீக்க", "அன்டூ"],
    add := ["சேர்", "எடு", "வாங்க", "கொடு"],
    numbers := [("ஒன்று", 1), ("இரண்டு", 2), ("மூன்று", 3), ("நான்கு", 4), ("ஐந்து", 5),
      ("ஆறு", 6), ("ஏழு", 7), ("எட்டு", 8), ("ஒன்பது", 9), ("பத்து", 10)] }

/-- `keywords[baseLang] || keywords.en` in the non-crashing case: the table of
    a registered base language, else the English fallback.  For a base
    language naming an `Object.prototype` member the source expression instead
    yields the truthy inherited member and the parser then throws;
    `getCommandKeywordsJs` models that full behavior. -/
def getCommandKeywords (lang : String) : Keywords :=
  let b := baseOf lang
  if b = "hi" then hiKeywords
  else if b = "kn" then knKeywords
  else if b = "ml" then mlKeywords
  else if b = "ta" then taKeywords
  else enKeywords

/-! ## Slot extraction -/

def containsAny (text : String) (ks : List String) : Bool :=
  ks.any (fun k => strIncludes text k)

def unitWords : List String :=
  ["packet", "packets", "of", "liter", "liters", "bottle", "bottles", "can",
    "cans", "piece", "pieces", "kg", "gram", "grams"]

def natOfDigits (l : List Char) : Nat :=
  l.foldl (fun n c => n * 10 + (c.toNat - 48)) 0

/-- First maximal ASCII digit run, the match of `/(\d+)/`. -/
def firstDigitRun : List Char → Option (List Char)
  | [] => none
  | c :: cs =>
    if c.isDigit then some (c :: cs.takeWhile Char.isDigit) else firstDigitRun cs

/-- First capture of `/(\d+(?:[\.,]\d{1,2})?)/`: a digit run with an optional
    dot/comma separator followed greedily by one or two digits.  The source's
    second, currency-symbol-tolerant pattern `/[₹$]?\s*(\d+(?:[\.,]\d{1,2})?)/`
    has the same first capture on every input (the optional prefix never
    changes the captured number), so both match attempts use this function. -/
def findFirstAmount : List Char → Option (List Char)
  | [] => none
  | c :: cs =>
    if c.isDigit then
      let run := c :: cs.takeWhile Char.isDigit
      let rest := cs.dropWhile Char.isDigit
      match rest with
      | [] => some run
      | sep :: r2 =>
        if sep == '.' || sep == ',' then
          let fr := (r2.takeWhile Char.isDigit).take 2
          if fr = [] then some run else some (run ++ sep :: fr)
        else some run
    else findFirstAmount cs

/-- `parseFloat` on a captured amount, after `replace(',', '.')`. -/
def ratOfCapture (cap : List Char) : ℚ :=
  let ip := cap.takeWhile Char.isDigit
  let rest := cap.dropWhile Char.isDigit
  match rest with
  | [] => (natOfDigits ip : ℚ)
  | _ :: fr => (natOfDigits ip : ℚ) + (natOfDigits fr : ℚ) / (10 : ℚ) ^ fr.length

/-- `Math.round(amount * 100) / 100` (round half toward positive infinity). -/
def round2 (q : ℚ) : ℚ := (((q * 100 + 1 / 2).floor : ℤ) : ℚ) / 100

/-- Quantity extraction of the add path: first number word in table order,
    then — whenever the quantity is still 1 — the first digit run, with
    `parseInt(x) || 1` and the [1, 100] clamp.  Returns the quantity and the
    matched literal text. -/
def extractQuantity (kws : Keywords) (norm : String) : Nat × String :=
  let base :=
    match kws.numbers.find? (fun wn => strIncludes norm wn.1) with
    | some (w, n) => (max 1 (min n 100), w)
    | none => (1, "")
  if base.1 = 1 then
    match firstDigitRun norm.data with
    | some run =>
      let parsed := if natOfDigits run = 0 then 1 else natOfDigits run
      (max 1 (min parsed 100), (⟨run⟩ : String))
    | none => base
  else base

/-- `replace(/\d+/g, '')`. -/
def removeDigits (s : String) : String := ⟨s.data.filter (fun c => !c.isDigit)⟩

/-! ## The command parser -/

def addBlock (i18nLang langStr : String) (kws : Keywords) (ps : List Product)
    (norm : String) : Option CommandResult :=
  let q := extractQuantity kws norm
  let pn0 := removeKws norm kws.add
  let pn1 := if q.2 ≠ "" then removeSub pn0 q.2 else pn0
  let pn2 := removeKws pn1 (kws.numbers.map Prod.fst)
  let pn3 := removeDigits pn2
  let pn4 := removeKws pn3 unitWords
  let pn := trimStr pn4
  match findProductByName i18nLang ps pn (some langStr) with
  | some p => some { type := .add, product := some p, quantity := some q.1 }
  | none => some { type := .unknown, action := some "product_not_found" }

def removeBlocks (i18nLang langStr : String) (kws : Keywords) (ps : List Product)
    (norm : String) : Option CommandResult :=
  if containsAny norm kws.removeLast then
    some { type := .remove, action := some "remove_last" }
  else if containsAny norm kws.remove then
    let pn0 := removeKws norm kws.remove
    let pn1 := removeKws pn0 (kws.numbers.map Prod.fst)
    let pn := trimStr (removeDigits pn1)
    match findProductByName i18nLang ps pn (some langStr) with
    | some p => some { type := .remove, product := some p, action := some "remove_product" }
    | none => addBlock i18nLang langStr kws ps norm
  else addBlock i18nLang langStr kws ps norm

/-- The second (currency-tolerant) amount match attempt; see `findFirstAmount`. -/
def receivedRetry (i18nLang langStr : String) (kws : Keywords) (ps : List Product)
    (norm : String) : Option CommandResult :=
  match findFirstAmount norm.data with
  | some cap =>
    let amount := ratOfCapture cap
    if 0 < amount ∧ amount ≤ 1000000 then
      some { type := .cash_amount, amount := some (round2 amount),
             action := some "set_cash_amount" }
    else removeBlocks i18nLang langStr kws ps norm
  | none => removeBlocks i18nLang langStr kws ps norm

def receivedBlock (i18nLang langStr : String) (kws : Keywords) (ps : List Product)
    (norm : String) : Option CommandResult :=
  if containsAny norm kws.received then
    match findFirstAmount norm.data with
    | some cap =>
      let amount := ratOfCapture cap
      if 0 < amount ∧ amount ≤ 1000000 then
        some { type := .cash_amount, amount := some (round2 amount),
               action := some "set_cash_amount" }
      else receivedRetry i18nLang langStr kws ps norm
    | none => receivedRetry i18nLang langStr kws ps norm
  else removeBlocks i18nLang langStr kws ps norm

/-- The priority-ordered category chain after input validation. -/
def parseCats (i18nLang langStr : String) (ps : List Product) (norm : String) :
    Option CommandResult :=
  let kws := getCommandKeywords langStr
  if containsAny norm kws.clear then
    some { type := .clear, action := some "clear_cart" }
  else if containsAny norm kws.checkout then
    some { type := .checkout, action := some "open_payment" }
  else if containsAny norm kws.payNow then
    some { type := .pay_now, action := some "confirm_payment" }
  else if containsAny norm kws.cash then
    some { type := .pay_method, method := some .cash, action := some "select_method" }
  else if containsAny norm kws.card then
    some { type := .pay_method, method := some .card, action := some "select_method" }
  else if containsAny norm kws.digital then
    some { type := .pay_method, method := some .digital, action := some "select_method" }
  else receivedBlock i18nLang langStr kws ps norm

/-- `parseVoiceCommand(transcript, language?)` on its non-throwing domain
    (base language not an `Object.prototype` member name), with the ambient
    `i18n.language` made an explicit first argument and the catalog snapshot
    (`this.products`) an explicit second argument.  `parseVoiceCommandJs` is
    the full model including the throwing path. -/
def parseVoiceCommand (i18nLang : String) (ps : List Product) (transcript : String)
    (language : Option String) : Option CommandResult :=
  if transcript = "" then some { type := .unknown, action := some "invalid_input" }
  else
    let langStr := effLang i18nLang language
    let norm := trimStr (toLowerStr transcript)
    if norm.length < 1 then some { type := .unknown, action := some "empty_transcript" }
    else parseCats i18nLang langStr ps norm

/-- The string keys inherited from `Object.prototype`: for these base language
    codes `keywords[baseLang]` yields a truthy non-table member instead of
    `undefined`, so the `|| keywords.en` fallback is skipped. -/
def protoKeys : List String :=
  ["constructor", "hasOwnProperty", "isPrototypeOf", "propertyIsEnumerable",
    "toLocaleString", "toString", "valueOf", "__proto__", "__defineGetter__",
    "__defineSetter__", "__lookupGetter__", "__lookupSetter__"]

/-- A thrown JavaScript exception. -/
inductive JsError where
  | typeError
deriving DecidableEq

/-- `keywords[baseLang] || keywords.en` in full: `some` of the keyword table
    for a registered base language and for the English fallback on `undefined`;
    `none` models the truthy `Object.prototype` member returned for its
    inherited keys — not a keyword table, so the caller's `keywords.clear` is
    `undefined` and the first `containsAny` throws. -/
def getCommandKeywordsJs (lang : String) : Option Keywords :=
  let b := baseOf lang
  if b = "hi" then some hiKeywords
  else if b = "kn" then some knKeywords
  else if b = "ml" then some mlKeywords
  else if b = "ta" then some taKeywords
  else if b = "en" then some enKeywords
  else if b ∈ protoKeys then none
  else some enKeywords

/-- `parseVoiceCommand(transcript, language?)` with the throwing path made
    explicit: after the two early returns, when the keyword lookup yields the
    inherited prototype member, `containsAny(normalizedTranscript,
    keywords.clear)` throws a `TypeError` (`undefined.some`); otherwise the
    category chain runs as in `parseVoiceCommand`. -/
def parseVoiceCommandJs (i18nLang : String) (ps : List Product) (transcript : String)
    (language : Option String) : Except JsError (Option CommandResult) :=
  if transcript = "" then
    .ok (some { type := .unknown, action := some "invalid_input" })
  else
    let langStr := effLang i18nLang language
    let norm := trimStr (toLowerStr transcript)
    if norm.length < 1 then
      .ok (some { type := .unknown, action := some "empty_transcript" })
    else
      match getCommandKeywordsJs langStr with
      | none => .error .typeError
      | some _ => .ok (parseCats i18nLang langStr ps norm)

/-! ## Properties of the best-scoring scan -/

theorem bestByAux_spec {α : Type} (f : α → ℚ) :
    ∀ (xs : List α) (a : α) (t : ℚ) (b : α) (s : ℚ),
      bestByAux f (some (a, t)) xs = some (b, s) →
      (∀ x ∈ xs, f x ≤ s) ∧ t ≤ s ∧
        ((b = a ∧ s = t) ∨
          ∃ l₁ l₂, xs = l₁ ++ b :: l₂ ∧ s = f b ∧ t < s ∧ ∀ x ∈ l₁, f x < s) := by
  intro xs
  induction xs with
  | nil =>
    intro a t b s h
    simp only [bestByAux] at h
    obtain ⟨hb, hs⟩ := Prod.mk.injEq _ _ _ _ ▸ Option.some.injEq _ _ ▸ h
    refine ⟨by simp, ?_, Or.inl ⟨hb.symm, hs.symm⟩⟩
    rw [hs]
  | cons x xs ih =>
    intro a t b s h
    simp only [bestByAux, bestStep] at h
    by_cases hc : t < f x
    · rw [if_pos hc] at h
      obtain ⟨h1, h2, h3⟩ := ih x (f x) b s h
      refine ⟨?_, le_of_lt (lt_of_lt_of_le hc h2), ?_⟩
      · intro y hy
        rcases List.mem_cons.mp hy with rfl | hy
        · exact h2
        · exact h1 y hy
      · rcases h3 with ⟨rfl, rfl⟩ | ⟨l₁, l₂, hxs, hsf, hts, hlt⟩
        · exact Or.inr ⟨[], xs, by simp, rfl, hc, by simp⟩
        · refine Or.inr ⟨x :: l₁, l₂, by rw [hxs]; rfl, hsf, lt_trans hc hts, ?_⟩
          intro y hy
          rcases List.mem_cons.mp hy with rfl | hy
          · exact hts
          · exact hlt y hy
    · rw [if_neg hc] at h
      obtain ⟨h1, h2, h3⟩ := ih a t b s h
      have hxle : f x ≤ t := le_of_not_lt hc
      refine ⟨?_, h2, ?_⟩
      · intro y hy
        rcases List.mem_cons.mp hy with rfl | hy
        · exact le_trans hxle h2
        · exact h1 y hy
      · rcases h3 with hl | ⟨l₁, l₂, hxs, hsf, hts, hlt⟩
        · exact Or.inl hl
        · refine Or.inr ⟨x :: l₁, l₂, by rw [hxs]; rfl, hsf, hts, ?_⟩
          intro y hy
          rcases List.mem_cons.mp hy with rfl | hy
          · exact lt_of_le_of_lt hxle hts
          · exact hlt y hy

theorem bestBy_spec {α : Type} (f : α → ℚ) (xs : List α) (b : α) (s : ℚ)
    (h : bestBy f xs = some (b, s)) :
    (∀ x ∈ xs, f x ≤ s) ∧ s = f b ∧
      ∃ l₁ l₂, xs = l₁ ++ b :: l₂ ∧ ∀ x ∈ l₁, f x < s := by
  cases xs with
  | nil => simp [bestBy, bestByAux] at h
  | cons x xs =>
    have h2 : bestByAux f (some (x, f x)) xs = some (b, s) := h
    obtain ⟨h1, hle, h3⟩ := bestByAux_spec f xs x (f x) b s h2
    rcases h3 with ⟨rfl, rfl⟩ | ⟨l₁, l₂, hxs, hsf, hts, hlt⟩
    · refine ⟨?_, rfl, [], xs, rfl, by simp⟩
      intro y hy
      rcases List.mem_cons.mp hy with rfl | hy
      · exact le_refl _
      · exact h1 y hy
    · refine ⟨?_, hsf, x :: l₁, l₂, by rw [hxs]; rfl, ?_⟩
      · intro y hy
        rcases List.mem_cons.mp hy with rfl | hy
        · exact hle
        · exact h1 y hy
      · intro y hy
        rcases List.mem_cons.mp hy with rfl | hy
        · exact hts
        · exact hlt y hy

theorem bestByAux_keep {α : Type} (f : α → ℚ) :
    ∀ (xs : List α) (a : α) (t : ℚ), (∀ x ∈ xs, f x ≤ t) →
      bestByAux f (some (a, t)) xs = some (a, t) := by
  intro xs
  induction xs with
  | nil => intro a t _; rfl
  | cons x xs ih =>
    intro a t h
    have hx : ¬ t < f x := not_lt.mpr (h x (by simp))
    simp only [bestByAux, bestStep, if_neg hx]
    exact ih a t (fun y hy => h y (List.mem_cons_of_mem _ hy))

theorem bestByAux_append {α : Type} (f : α → ℚ) :
    ∀ (l l2 : List α) (acc : Option (α × ℚ)),
      bestByAux f acc (l ++ l2) = bestByAux f (bestByAux f acc l) l2 := by
  intro l
  induction l with
  | nil => intro l2 acc; rfl
  | cons x xs ih => intro l2 acc; simp only [List.cons_append, bestByAux]; exact ih l2 _

theorem bestByAux_lt {α : Type} (f : α → ℚ) (c : ℚ) :
    ∀ (xs : List α) (a : α) (t : ℚ), t < c → (∀ x ∈ xs, f x < c) →
      ∃ q, bestByAux f (some (a, t)) xs = some q ∧ q.2 < c := by
  intro xs
  induction xs with
  | nil => intro a t ht _; exact ⟨(a, t), rfl, ht⟩
  | cons x xs ih =>
    intro a t ht h
    simp only [bestByAux, bestStep]
    by_cases hc : t < f x
    · rw [if_pos hc]
      exact ih x (f x) (h x (by simp)) (fun y hy => h y (List.mem_cons_of_mem _ hy))
    · rw [if_neg hc]
      exact ih a t ht (fun y hy => h y (List.mem_cons_of_mem _ hy))

theorem bestBy_first {α : Type} (f : α → ℚ) (p : α) :
    ∀ (l₁ l₂ : List α), (∀ x ∈ l₁, f x < f p) → (∀ x ∈ l₂, f x ≤ f p) →
      bestBy f (l₁ ++ p :: l₂) = some (p, f p) := by
  intro l₁ l₂ h1 h2
  cases l₁ with
  | nil =>
    have : bestBy f (p :: l₂) = bestByAux f (some (p, f p)) l₂ := rfl
    rw [List.nil_append, this]
    exact bestByAux_keep f l₂ p (f p) h2
  | cons x l₁ =>
    have hstep : bestBy f ((x :: l₁) ++ p :: l₂) =
        bestByAux f (bestByAux f (some (x, f x)) l₁) (p :: l₂) := by
      show bestByAux f (some (x, f x)) (l₁ ++ p :: l₂) = _
      exact bestByAux_append f l₁ (p :: l₂) _
    rw [hstep]
    obtain ⟨⟨a2, t2⟩, hq, hlt2⟩ :=
      bestByAux_lt f (f p) l₁ x (f x) (h1 x (by simp))
        (fun y hy => h1 y (List.mem_cons_of_mem _ hy))
    rw [hq]
    simp only [bestByAux, bestStep, if_pos hlt2]
    exact bestByAux_keep f l₂ p (f p) h2

/-- Characterization of stage 5: it returns exactly the first maximum-scoring
    candidate in catalog order, provided that maximum reaches the threshold. -/
theorem stage5_iff (i18nLang lang : String) (ps : List Product) (qT : Finset String)
    (p : Product) :
    stage5 i18nLang lang ps qT = some p ↔
      ∃ l₁ l₂, ps = l₁ ++ p :: l₂ ∧
        jaccardThreshold ≤ productScore i18nLang lang qT p ∧
        (∀ x ∈ l₁, productScore i18nLang lang qT x < productScore i18nLang lang qT p) ∧
        (∀ x ∈ ps, productScore i18nLang lang qT x ≤ productScore i18nLang lang qT p) := by
  constructor
  · intro h
    simp only [stage5] at h
    rcases hb : bestBy (productScore i18nLang lang qT) ps with _ | ⟨b, s⟩
    · rw [hb] at h; exact absurd h (by simp)
    · rw [hb] at h
      have h2 : (if jaccardThreshold ≤ s then some b else none) = some p := h
      by_cases ht : jaccardThreshold ≤ s
      · rw [if_pos ht] at h2
        have hbp : b = p := Option.some.inj h2
        subst hbp
        obtain ⟨hle, hsf, l₁, l₂, hdec, hstrict⟩ := bestBy_spec _ ps b s hb
        subst hsf
        exact ⟨l₁, l₂, hdec, ht, hstrict, hle⟩
      · rw [if_neg ht] at h2; exact absurd h2 (by simp)
  · rintro ⟨l₁, l₂, hdec, hthr, hstrict, hle⟩
    have h2 : ∀ x ∈ l₂, productScore i18nLang lang qT x ≤ productScore i18nLang lang qT p := by
      intro x hx
      exact hle x (by rw [hdec]; exact List.mem_append_right _ (List.mem_cons_of_mem _ hx))
    have hb : bestBy (productScore i18nLang lang qT) ps =
        some (p, productScore i18nLang lang qT p) := by
      rw [hdec]; exact bestBy_first _ p l₁ l₂ hstrict h2
    simp only [stage5, hb, if_pos hthr]

/-! ## Structural lemmas on the parser's branches -/

theorem addBlock_isSome (i18nLang langStr : String) (kws : Keywords) (ps : List Product)
    (norm : String) : (addBlock i18nLang langStr kws ps norm).isSome = true := by
  simp only [addBlock]
  split <;> simp

theorem removeBlocks_isSome (i18nLang langStr : String) (kws : Keywords)
    (ps : List Product) (norm : String) :
    (removeBlocks i18nLang langStr kws ps norm).isSome = true := by
  simp only [removeBlocks]
  repeat' split
  all_goals simp [addBlock_isSome]

theorem receivedRetry_isSome (i18nLang langStr : String) (kws : Keywords)
    (ps : List Product) (norm : String) :
    (receivedRetry i18nLang langStr kws ps norm).isSome = true := by
  simp only [receivedRetry]
  repeat' split
  all_goals simp [removeBlocks_isSome]

theorem receivedBlock_isSome (i18nLang langStr : String) (kws : Keywords)
    (ps : List Product) (norm : String) :
    (receivedBlock i18nLang langStr kws ps norm).isSome = true := by
  simp only [receivedBlock]
  repeat' split
  all_goals simp [removeBlocks_isSome, receivedRetry_isSome]

theorem parseCats_isSome (i18nLang langStr : String) (ps : List Product)
    (norm : String) : (parseCats i18nLang langStr ps norm).isSome = true := by
  simp only [parseCats]
  repeat' split
  all_goals simp [receivedBlock_isSome]

theorem addBlock_ne_cash (i18nLang langStr : String) (kws : Keywords) (ps : List Product)
    (norm : String) (r : CommandResult) (h : addBlock i18nLang langStr kws ps norm = some r) :
    r.type ≠ CmdType.cash_amount := by
  simp only [addBlock] at h
  split at h <;> (have hr := Option.some.inj h; subst hr; simp)

theorem removeBlocks_ne_cash (i18nLang langStr : String) (kws : Keywords)
    (ps : List Product) (norm : String) (r : CommandResult)
    (h : removeBlocks i18nLang langStr kws ps norm = some r) :
    r.type ≠ CmdType.cash_amount := by
  simp only [removeBlocks] at h
  split at h
  · have hr := Option.some.inj h; subst hr; simp
  · split at h
    · split at h
      · have hr := Option.some.inj h; subst hr; simp
      · exact addBlock_ne_cash _ _ _ _ _ _ h
    · exact addBlock_ne_cash _ _ _ _ _ _ h

theorem receivedRetry_cash (i18nLang langStr : String) (kws : Keywords)
    (ps : List Product) (norm : String) (r : CommandResult)
    (h : receivedRetry i18nLang langStr kws ps norm = some r)
    (ht : r.type = CmdType.cash_amount) : r.amount.isSome = true := by
  simp only [receivedRetry] at h
  split at h
  · split at h
    · have hr := Option.some.inj h; subst hr; simp
    · exact absurd ht (removeBlocks_ne_cash _ _ _ _ _ _ h)
  · exact absurd ht (removeBlocks_ne_cash _ _ _ _ _ _ h)

theorem receivedBlock_cash (i18nLang langStr : String) (kws : Keywords)
    (ps : List Product) (norm : String) (r : CommandResult)
    (h : receivedBlock i18nLang langStr kws ps norm = some r)
    (ht : r.type = CmdType.cash_amount) : r.amount.isSome = true := by
  simp only [receivedBlock] at h
  split at h
  · split at h
    · split at h
      · have hr := Option.some.inj h; subst hr; simp
      · exact receivedRetry_cash _ _ _ _ _ _ h ht
    · exact receivedRetry_cash _ _ _ _ _ _ h ht
  · exact absurd ht (removeBlocks_ne_cash _ _ _ _ _ _ h)

theorem parseCats_cash (i18nLang langStr : String) (ps : List Product) (norm : String)
    (r : CommandResult) (h : parseCats i18nLang langStr ps norm = some r)
    (ht : r.type = CmdType.cash_amount) : r.amount.isSome = true := by
  simp only [parseCats] at h
  repeat' split at h
  all_goals first
    | (have hr := Option.some.inj h; subst hr; simp at ht)
    | exact receivedBlock_cash _ _ _ _ _ _ h ht

/-! ## Language-argument lemmas -/

theorem effLang_some (s : String) (h : s ≠ "") (i18nLang : String) :
    effLang i18nLang (some s) = s := by
  simp [effLang, jsOr, h]

theorem gpn_eq (l : String) (h : l ≠ "") (i18nLang : String) (p : Product) :
    getProductNameInLanguage i18nLang p (some l) = nameResolve l p := by
  simp only [getProductNameInLanguage, effLang_some l h]

theorem baseOf_empty : baseOf "" = "" := rfl

theorem baseOf_ne (s : String) (h : baseOf s ≠ "") : s ≠ "" := by
  intro he
  subst he
  exact h baseOf_empty

theorem productScore_irrel (l : String) (h : l ≠ "") (a b : String)
    (qT : Finset String) : productScore a l qT = productScore b l qT := by
  funext p
  simp only [productScore, gpn_eq l h]

theorem fpbnAux_irrel (l : String) (h : baseOf l ≠ "") (a b : String)
    (ps : List Product) (n : String) : fpbnAux a l ps n = fpbnAux b l ps n := by
  simp only [fpbnAux, stage5, gpn_eq (baseOf l) h, productScore_irrel (baseOf l) h a b]

theorem fpbn_some (l : String) (h : baseOf l ≠ "") (a b : String) (ps : List Product)
    (n : String) :
    findProductByName a ps n (some l) = findProductByName b ps n (some l) := by
  simp only [findProductByName, effLang_some l (baseOf_ne l h)]
  exact fpbnAux_irrel l h a b ps n

theorem addBlock_irrel (l : String) (h : baseOf l ≠ "") (a b : String) (kws : Keywords)
    (ps : List Product) (norm : String) :
    addBlock a l kws ps norm = addBlock b l kws ps norm := by
  simp only [addBlock, fpbn_some l h a b]

theorem removeBlocks_irrel (l : String) (h : baseOf l ≠ "") (a b : String)
    (kws : Keywords) (ps : List Product) (norm : String) :
    removeBlocks a l kws ps norm = removeBlocks b l kws ps norm := by
  simp only [removeBlocks, fpbn_some l h a b, addBlock_irrel l h a b]

theorem receivedRetry_irrel (l : String) (h : baseOf l ≠ "") (a b : String)
    (kws : Keywords) (ps : List Product) (norm : String) :
    receivedRetry a l kws ps norm = receivedRetry b l kws ps norm := by
  simp only [receivedRetry, removeBlocks_irrel l h a b]

theorem receivedBlock_irrel (l : String) (h : baseOf l ≠ "") (a b : String)
    (kws : Keywords) (ps : List Product) (norm : String) :
    receivedBlock a l kws ps norm = receivedBlock b l kws ps norm := by
  simp only [receivedBlock, removeBlocks_irrel l h a b, receivedRetry_irrel l h a b]

theorem parseCats_irrel (l : String) (h : baseOf l ≠ "") (a b : String)
    (ps : List Product) (norm : String) :
    parseCats a l ps norm = parseCats b l ps norm := by
  simp only [parseCats, receivedBlock_irrel l h a b]

/-! ## Keyword-table facts -/

theorem keywords_nonempty (l : String) :
    (((getCommandKeywords l).clear ++ (getCommandKeywords l).checkout ++
        (getCommandKeywords l).cash).all (fun k => k ≠ "")) = true := by
  simp only [getCommandKeywords]
  repeat' split
  all_goals decide

theorem strIncludes_of_empty (k : String) (h : strIncludes "" k = true) : k = "" := by
  cases k with
  | mk d =>
    cases d with
    | nil => rfl
    | cons c cs => simp [strIncludes, hasSub, subAt] at h

theorem containsAny_ne_empty (s : String) (ks : List String)
    (hne : ks.all (fun k => k ≠ "") = true) (h : containsAny s ks = true) : s ≠ "" := by
  intro he
  subst he
  simp only [containsAny, List.any_eq_true] at h
  obtain ⟨k, hk, hik⟩ := h
  simp only [List.all_eq_true] at hne
  exact absurd (strIncludes_of_empty k hik) (by simpa using hne k hk)

theorem length_lt_one (s : String) (h : s ≠ "") : ¬ s.length < 1 := by
  cases s with
  | mk d =>
    cases d with
    | nil => exact absurd rfl h
    | cons c cs => simp [String.length]

/-! ## Claim C1 -/

/-- Claim C1, counterexample: on transcript "pay with cash" with language "en"
    and the empty catalog, `parseVoiceCommand` returns the ConfirmPayment
    (`pay_now`) result, not the SelectPaymentMethod(cash) result the claim
    asserts: the pay-now literal "pay" is a substring and pay-now is tested
    before select-cash in the fixed priority order. -/
theorem c1_counterexample :
    parseVoiceCommand "en" [] "pay with cash" (some "en") =
      some { type := .pay_now, action := some "confirm_payment" } ∧
    ({ type := .pay_now, action := some "confirm_payment" } : CommandResult) ≠
      { type := .pay_method, method := some .cash, action := some "select_method" } := by
  constructor
  · decide
  · decide

/-- Claim C1, amended: for every ambient i18n language and every catalog,
    transcript "pay with cash" with language "en" yields the ConfirmPayment
    (`pay_now`) result, because the pay-now literal "pay" matches before the
    select-cash category in the fixed priority order. -/
theorem c1_amended (i18nLang : String) (ps : List Product) :
    parseVoiceCommand i18nLang ps "pay with cash" (some "en") =
      some { type := .pay_now, action := some "confirm_payment" } := by
  rfl

/-! ## Claim C2 -/

/-- Claim C2, counterexample: the transcript "received" (language "en", empty
    catalog) matches an amount-received keyword and carries no parseable
    amount, yet the result does not reflect the amount-received category at
    all — the parser falls through and returns `Unknown("product_not_found")`,
    a result whose type is not `cash_amount`. -/
theorem c2_counterexample :
    parseVoiceCommand "en" [] "received" (some "en") =
      some { type := .unknown, action := some "product_not_found" } ∧
    ({ type := .unknown, action := some "product_not_found" } : CommandResult).type ≠
      CmdType.cash_amount := by
  constructor
  · decide
  · decide

/-- Claim C2, amended: a `cash_amount` result always carries an amount
    payload; when no valid amount is extracted, the amount-received branch
    returns nothing and classification falls through to the lower-priority
    categories, so no payload-less amount-received result ever exists. -/
theorem c2_amended (i18nLang : String) (ps : List Product) (t : String)
    (language : Option String) (r : CommandResult)
    (h : parseVoiceCommand i18nLang ps t language = some r)
    (ht : r.type = CmdType.cash_amount) : r.amount.isSome = true := by
  simp only [parseVoiceCommand] at h
  split at h
  · have hr := Option.some.inj h; subst hr; simp at ht
  · split at h
    · have hr := Option.some.inj h; subst hr; simp at ht
    · exact parseCats_cash _ _ _ _ _ h ht

/-- Witness for C2's amended theorem at the concrete transcript
    "received 50": the parser returns a `cash_amount` result and the theorem
    yields its attached amount. -/
theorem c2_witness :
    ({ type := .cash_amount, amount := some 50, action := some "set_cash_amount" } :
      CommandResult).amount.isSome = true :=
  c2_amended "en" [] "received 50" (some "en")
    { type := .cash_amount, amount := some 50, action := some "set_cash_amount" }
    (by with_unfolding_all decide) (by decide)

/-! ## Claim C3 -/

/-- Claim C3, counterexample: "received -5" (language "en") does not reject the
    non-positive value: the digit regex skips the minus sign, captures "5" and
    attaches amount 5. -/
theorem c3_counterexample :
    parseVoiceCommand "en" [] "received -5" (some "en") =
      some { type := .cash_amount, amount := some 5, action := some "set_cash_amount" } ∧
    ({ type := .cash_amount, amount := some 5, action := some "set_cash_amount" } :
      CommandResult).amount ≠ none := by
  constructor
  · with_unfolding_all decide
  · decide

/-- Claim C3, amended: "received 50 dollars" yields amount 50 and
    "received ₹45.5" yields amount 45.5 as claimed, but "received -5" yields
    amount 5 rather than no amount: the amount pattern has no sign, so the
    minus sign is skipped and the digits parse as a positive value. -/
theorem c3_amended :
    parseVoiceCommand "en" [] "received 50 dollars" (some "en") =
      some { type := .cash_amount, amount := some 50, action := some "set_cash_amount" } ∧
    parseVoiceCommand "en" [] "received ₹45.5" (some "en") =
      some { type := .cash_amount, amount := some 45.5, action := some "set_cash_amount" } ∧
    parseVoiceCommand "en" [] "received -5" (some "en") =
      some { type := .cash_amount, amount := some 5, action := some "set_cash_amount" } := by
  refine ⟨?_, ?_, ?_⟩ <;> with_unfolding_all decide

/-! ## Claim C4 -/

/-- Claim C4, counterexample: the empty transcript is caught by the falsy
    input guard and tagged "invalid_input", not "empty_transcript" as the
    claim asserts for every blank transcript. -/
theorem c4_counterexample :
    parseVoiceCommand "en" [] "" (some "en") =
      some { type := .unknown, action := some "invalid_input" } ∧
    (some ({ type := .unknown, action := some "invalid_input" } : CommandResult)) ≠
      some ({ type := .unknown, action := some "empty_transcript" } : CommandResult) := by
  constructor
  · decide
  · decide

/-- Claim C4, amended: every nonempty transcript that lowercases and trims to
    the empty string yields `Unknown("empty_transcript")`; the empty string
    itself is instead caught by the input guard with tag "invalid_input". -/
theorem c4_amended (i18nLang : String) (ps : List Product) (language : Option String)
    (t : String) (ht : t ≠ "") (hn : trimStr (toLowerStr t) = "") :
    parseVoiceCommand i18nLang ps t language =
      some { type := .unknown, action := some "empty_transcript" } := by
  simp only [parseVoiceCommand, if_neg ht, hn]
  rfl

/-- Witness for C4's amended theorem at the one-space transcript. -/
theorem c4_witness :
    parseVoiceCommand "en" [] " " (some "en") =
      some { type := .unknown, action := some "empty_transcript" } :=
  c4_amended "en" [] (some "en") " " (by decide) (by decide)

/-! ## Claim C5 -/

/-- Claim C5: evaluation of the code at the failing input.  In
    "add one 5 chips" the number word "one" is found, yet the digit run "5"
    still overwrites the quantity because the digit branch is guarded by
    `quantity === 1` rather than by "no number word was found" (the code's own
    comment says "If no language number found, check for digits").  The
    clamping example "add 500 chips" → 100 behaves as claimed. -/
theorem c5_quantity_guard_eval :
    parseVoiceCommand "en" [chipsProduct] "add one 5 chips" (some "en") =
      some { type := .add, product := some chipsProduct, quantity := some 5 } ∧
    parseVoiceCommand "en" [chipsProduct] "add 500 chips" (some "en") =
      some { type := .add, product := some chipsProduct, quantity := some 100 } := by
  constructor
  · with_unfolding_all decide
  · with_unfolding_all decide

/-! ## Claim C6 -/

/-- The localized name a product registers for a language code, if any. -/
def localizedName (p : Product) (l : String) : Option String :=
  if l = "en" then some p.name_en
  else if l = "kn" then p.name_kn
  else if l = "ml" then p.name_ml
  else if l = "ta" then p.name_ta
  else if l = "hi" then p.name_hi
  else none

/-- Claim C6: round-trip resolution over the fixture catalog — for every
    product of the catalog and every supported language in which it has a
    localized name, resolving that exact localized name string with that
    language active returns that same product. -/
theorem c6_roundtrip :
    ∀ p ∈ MOCK_PRODUCTS, ∀ l ∈ (["en", "kn", "ml", "ta", "hi"] : List String),
      (localizedName p l).all
        (fun n => findProductByName "en" MOCK_PRODUCTS n (some l) == some p) = true := by
  with_unfolding_all decide

/-- Witness for C6 at the Chips product and language "en". -/
theorem c6_witness :
    (localizedName chipsProduct "en").all
      (fun n => findProductByName "en" MOCK_PRODUCTS n (some "en") == some chipsProduct) =
      true :=
  c6_roundtrip chipsProduct (by with_unfolding_all decide) "en" (by decide)

/-! ## Claim C10 -/

/-- Totality of the non-throwing restriction: every execution path of the
    category chain produces a populated result object. -/
theorem parseVoiceCommand_isSome (i18nLang : String) (ps : List Product) (t : String)
    (language : Option String) :
    (parseVoiceCommand i18nLang ps t language).isSome = true := by
  simp only [parseVoiceCommand]
  split
  · simp
  · split
    · simp
    · exact parseCats_isSome _ _ _ _

/-- The keyword lookup yields the inherited non-table member only for
    `Object.prototype` keys. -/
theorem getCommandKeywordsJs_none (l : String) (h : getCommandKeywordsJs l = none) :
    baseOf l ∈ protoKeys := by
  simp only [getCommandKeywordsJs] at h
  repeat' split at h
  all_goals simp_all

/-- Claim C10 (code bug): the claimed totality fails on the code — the parser
    CAN throw at the public interface.  For a language code whose base names
    an `Object.prototype` member (e.g. "constructor", "toString",
    "__proto__"), `keywords[baseLang]` yields the truthy inherited member, so
    the English fallback is skipped, `keywords.clear` is `undefined`, and the
    first `containsAny` throws a `TypeError`.  On every other language code
    the claim holds: the call agrees with the non-throwing model and returns a
    populated, non-null result.  The spec's error design ("unregistered
    language code → silently substitute the English rule table; never surfaced
    as an error", "never an exception or crash") is the evident intent of the
    `|| keywords.en` fallback, making the throwing path a code bug. -/
theorem c10_prototype_throw :
    parseVoiceCommandJs "en" [] "add chips" (some "constructor") =
      .error .typeError ∧
    parseVoiceCommandJs "en" [] "add chips" (some "toString") = .error .typeError ∧
    parseVoiceCommandJs "en" [] "add chips" (some "__proto__") = .error .typeError ∧
    ∀ (i18nLang : String) (ps : List Product) (t : String) (language : Option String),
      baseOf (effLang i18nLang language) ∉ protoKeys →
        parseVoiceCommandJs i18nLang ps t language =
          .ok (parseVoiceCommand i18nLang ps t language) ∧
        (parseVoiceCommand i18nLang ps t language).isSome = true := by
  refine ⟨rfl, rfl, rfl, ?_⟩
  intro i18nLang ps t language hp
  refine ⟨?_, parseVoiceCommand_isSome i18nLang ps t language⟩
  simp only [parseVoiceCommandJs, parseVoiceCommand]
  split
  · rfl
  · split
    · rfl
    · cases hk : getCommandKeywordsJs (effLang i18nLang language) with
      | none => exact absurd (getCommandKeywordsJs_none _ hk) hp
      | some kws => rfl

/-- Witness for C10's theorem at the registered language "en": the full model
    agrees with the non-throwing parser and returns a populated result. -/
theorem c10_witness :
    parseVoiceCommandJs "en" [] "add chips" (some "en") =
      .ok (parseVoiceCommand "en" [] "add chips" (some "en")) ∧
    (parseVoiceCommand "en" [] "add chips" (some "en")).isSome = true :=
  c10_prototype_throw.2.2.2 "en" [] "add chips" (some "en") (by decide)

/-! ## Claim C9 -/

/-- Claim C9, counterexample: two calls with identical transcript "cash",
    identical language code `""` and identical (empty) catalog return
    different results under different ambient i18n languages — the empty
    language argument is falsy, so the ambient language becomes part of the
    input. -/
theorem c9_counterexample :
    parseVoiceCommand "en" [] "cash" (some "") ≠
      parseVoiceCommand "hi" [] "cash" (some "") := by
  decide

/-- Claim C9, amended: determinism holds whenever the supplied language code
    has a nonempty base segment before the first hyphen; the result is then
    a function of (transcript, language, catalog) only, independent of the
    ambient i18n language. -/
theorem c9_amended (a b : String) (ps : List Product) (t s : String)
    (h : baseOf s ≠ "") :
    parseVoiceCommand a ps t (some s) = parseVoiceCommand b ps t (some s) := by
  have hs : s ≠ "" := baseOf_ne s h
  simp only [parseVoiceCommand, effLang_some s hs]
  split
  · rfl
  · split
    · rfl
    · exact parseCats_irrel s h a b ps _

/-- Witness for C9's amended theorem: two calls under different ambient
    languages agree on language code "en". -/
theorem c9_witness :
    parseVoiceCommand "en" [] "cash" (some "en") =
      parseVoiceCommand "hi" [] "cash" (some "en") :=
  c9_amended "en" "hi" [] "cash" "en" (by decide)

/-! ## Claim C7 -/

/-- Token sets with |intersection| = 2 and |union| = 5, scoring exactly 0.4. -/
def jacSmallA : Finset String := {"a", "b", "c"}

def jacSmallB : Finset String := {"a", "b", "d", "e"}

/-- Token sets with |intersection| = 39 and |union| = 100, scoring 0.39. -/
def jacBigA : Finset String := ((List.range 39).map toString).toFinset

def jacBigB : Finset String := ((List.range 100).map toString).toFinset

/-- Claim C7: in the token-Jaccard stage, the score is |∩|/|∪| of the token
    sets; stage 5 returns a candidate exactly when it is a maximum-scoring
    candidate preceded only by strictly smaller scores (first maximum wins
    ties, in catalog order) whose score reaches the 0.4 threshold; a pair of
    token sets scoring exactly 0.4 is accepted and one scoring 0.39 is
    rejected. -/
theorem c7_jaccard_stage :
    (∀ a b : Finset String,
        jaccard a b * ((a ∪ b).card : ℚ) = ((a ∩ b).card : ℚ)) ∧
    (∀ (i18nLang lang : String) (ps : List Product) (qT : Finset String) (p : Product),
        stage5 i18nLang lang ps qT = some p ↔
          ∃ l₁ l₂, ps = l₁ ++ p :: l₂ ∧
            jaccardThreshold ≤ productScore i18nLang lang qT p ∧
            (∀ x ∈ l₁, productScore i18nLang lang qT x < productScore i18nLang lang qT p) ∧
            (∀ x ∈ ps, productScore i18nLang lang qT x ≤ productScore i18nLang lang qT p)) ∧
    (jaccard jacSmallA jacSmallB = 2 / 5 ∧ jaccardThreshold ≤ jaccard jacSmallA jacSmallB) ∧
    (jaccard jacBigA jacBigB = 39 / 100 ∧ ¬ jaccardThreshold ≤ jaccard jacBigA jacBigB) := by
  refine ⟨?_, stage5_iff, ⟨?_, ?_⟩, ⟨?_, ?_⟩⟩
  · intro a b
    simp only [jaccard]
    by_cases h : (a ∪ b).card = 0
    · rw [if_pos h]
      have hsub : (a ∩ b).card = 0 :=
        Nat.le_zero.mp (h ▸ Finset.card_le_card Finset.inter_subset_union)
      simp [hsub]
    · rw [if_neg h]
      exact div_mul_cancel₀ _ (Nat.cast_ne_zero.mpr h)
  · with_unfolding_all decide
  · with_unfolding_all decide
  · set_option maxRecDepth 20000 in with_unfolding_all decide
  · set_option maxRecDepth 20000 in with_unfolding_all decide

/-! ## Claim C8 -/

/-- Claim C8, counterexample: "clear checkout cash" (language "en") contains
    both a checkout literal and a cash literal, yet classifies as Clear, not
    Checkout, because the clear category outranks checkout. -/
theorem c8_counterexample :
    containsAny (trimStr (toLowerStr "clear checkout cash"))
        (getCommandKeywords (effLang "en" (some "en"))).checkout = true ∧
    containsAny (trimStr (toLowerStr "clear checkout cash"))
        (getCommandKeywords (effLang "en" (some "en"))).cash = true ∧
    parseVoiceCommand "en" [] "clear checkout cash" (some "en") =
      some { type := .clear, action := some "clear_cart" } ∧
    ({ type := .clear, action := some "clear_cart" } : CommandResult).type ≠
      CmdType.checkout := by
  refine ⟨?_, ?_, ?_, ?_⟩ <;> decide

/-- Claim C8, amended: a transcript containing both a checkout literal and a
    cash literal of the effective language never classifies as
    SelectPaymentMethod(cash), and it classifies as Checkout provided no
    higher-priority clear literal is also contained. -/
theorem c8_amended (i18nLang : String) (ps : List Product) (t : String)
    (language : Option String)
    (hchk : containsAny (trimStr (toLowerStr t))
        (getCommandKeywords (effLang i18nLang language)).checkout = true)
    (hcash : containsAny (trimStr (toLowerStr t))
        (getCommandKeywords (effLang i18nLang language)).cash = true) :
    (∀ r, parseVoiceCommand i18nLang ps t language = some r →
        ¬(r.type = CmdType.pay_method ∧ r.method = some PayMethod.cash)) ∧
    (containsAny (trimStr (toLowerStr t))
        (getCommandKeywords (effLang i18nLang language)).clear = false →
      parseVoiceCommand i18nLang ps t language =
        some { type := .checkout, action := some "open_payment" }) := by
  have hkw := keywords_nonempty (effLang i18nLang language)
  simp only [List.all_append, Bool.and_eq_true] at hkw
  obtain ⟨⟨hclearne, hchkne⟩, hcashne⟩ := hkw
  have hnorm : trimStr (toLowerStr t) ≠ "" := containsAny_ne_empty _ _ hchkne hchk
  have ht : t ≠ "" := by
    intro he
    subst he
    exact hnorm rfl
  constructor
  · intro r h
    simp only [parseVoiceCommand, if_neg ht] at h
    rw [if_neg (length_lt_one _ hnorm)] at h
    simp only [parseCats] at h
    by_cases hcl : containsAny (trimStr (toLowerStr t))
        (getCommandKeywords (effLang i18nLang language)).clear = true
    · rw [if_pos hcl] at h
      have hr := Option.some.inj h
      subst hr
      simp
    · rw [if_neg hcl, if_pos hchk] at h
      have hr := Option.some.inj h
      subst hr
      simp
  · intro hclear
    have hclf : ¬ containsAny (trimStr (toLowerStr t))
        (getCommandKeywords (effLang i18nLang language)).clear = true := by
      simp [hclear]
    simp only [parseVoiceCommand, if_neg ht]
    rw [if_neg (length_lt_one _ hnorm)]
    simp only [parseCats]
    rw [if_neg hclf, if_pos hchk]

/-- Witness for C8's amended theorem on "checkout cash" (language "en"). -/
theorem c8_witness :
    parseVoiceCommand "en" [] "checkout cash" (some "en") =
      some { type := .checkout, action := some "open_payment" } :=
  (c8_amended "en" [] "checkout cash" (some "en") (by decide) (by decide)).2 (by decide)

end VoiceBill
